import Mathlib

/-!
Verification of the language-profile core of lute-v3
(`src/lute/models/language.py`).

The development shallowly embeds:

* `Language._get_python_regex_pattern` (lines 53-69): the call
  `re.sub(r'\\x\x7b([0-9A-Fa-f]+)\x7d', convert_match, s)` replaces every
  leftmost non-overlapping occurrence of backslash, `x`, `{`, one or more
  hex digits, `}` by backslash, `u`, the same digits.  Python's `re.sub`
  scans the string left to right: at each position it tries to match the
  pattern; on a match it emits the replacement and resumes after the match,
  otherwise it emits the current character and moves one position right.
  Because the hex-digit class is disjoint from `}`, the `+` quantifier can
  only match the maximal hex-digit run at that position.  `re.sub` raises
  `TypeError` when handed a non-string; here the wrapper functions that can
  receive arbitrary dynamic values return `Except`.
* the `word_characters` property (lines 72-79),
* `Language.__init__` (lines 37-46),
* `Language.from_yaml` (lines 82-124),
* `Language.get_predefined` (lines 127-142), with the directory scan
  abstracted as the list of parsed documents it yields,
* the parser dispatch (lines 192-200); the registry itself
  (`lute.parse.registry`) is not part of the sources and is modelled from
  the spec.

Python dynamic values that can appear as scalar fields of a parsed yaml
document, and hence as attribute values of a `Language` instance, are
modelled by `PyVal`.
-/

/-- A Python scalar value as produced by `yaml.safe_load` for the scalar
entries of a language definition document: `None`, a boolean, a string or
an integer. -/
inductive PyVal where
  | vnone : PyVal
  | vbool : Bool → PyVal
  | vstr : String → PyVal
  | vint : Int → PyVal
deriving DecidableEq, Repr

/-- The character class `[0-9A-Fa-f]` of the pattern on line 68 of
`language.py`. -/
def isHexDigit (c : Char) : Bool :=
  ('0' ≤ c && c ≤ '9') || ('A' ≤ c && c ≤ 'F') || ('a' ≤ c && c ≤ 'f')

/-- Split a character list into its maximal leading run of `[0-9A-Fa-f]`
digits and the rest: the behaviour of the greedy `[0-9A-Fa-f]+` quantifier
of the pattern on line 68 of `language.py` at a fixed position. -/
def hexSpan : List Char → List Char × List Char
  | [] => ([], [])
  | c :: cs =>
    if isHexDigit c then
      let p := hexSpan cs
      (c :: p.1, p.2)
    else ([], c :: cs)

/-- Attempt to match the regex `\\x\x7b([0-9A-Fa-f]+)\x7d` (line 68 of
`language.py`) at the start of the list.  On success, returns the captured
digit group and the remainder of the input after the match.  Since the
hex-digit class cannot match `}`, the regex engine's greedy `+` matches
exactly the maximal hex-digit run, and the match succeeds iff that run is
nonempty and is followed by `}`. -/
def matchEscape : List Char → Option (List Char × List Char)
  | c1 :: c2 :: c3 :: rest =>
    if c1 = '\\' ∧ c2 = 'x' ∧ c3 = '{' then
      let p := hexSpan rest
      if p.1 ≠ [] ∧ p.2.head? = some '}' then some (p.1, p.2.tail) else none
    else none
  | [] => none
  | [_] => none
  | [_, _] => none

/-- The left-to-right scan of `re.sub` (line 68 of `language.py`) over a
character list, with a fuel argument for structural recursion; each step
consumes at least one character, so fuel `l.length` always suffices
(`pySubFuel_congr`). At each position: on a match of
`\\x\x7b([0-9A-Fa-f]+)\x7d`, emit `\u` followed by the captured digits
(the body of `convert_match`, lines 64-67) and resume after the match;
otherwise emit the current character and move on. -/
def pySubFuel : Nat → List Char → List Char
  | 0, l => l
  | _ + 1, [] => []
  | n + 1, c :: cs =>
    match matchEscape (c :: cs) with
    | some (h, tail) => '\\' :: 'u' :: (h ++ pySubFuel n tail)
    | none => c :: pySubFuel n cs

/-- `re.sub(r'\\x\x7b([0-9A-Fa-f]+)\x7d', convert_match, l)` on a character
list. -/
def pyRegexSub (l : List Char) : List Char :=
  pySubFuel l.length l

/-- `Language._get_python_regex_pattern` (lines 53-69 of `language.py`)
applied to a string argument. -/
def getPythonRegexPattern (s : String) : String :=
  String.mk (pyRegexSub s.data)

/-- A string contains an occurrence of the legacy hex-escape syntax
`\x\x7bHEX\x7d` iff the pattern of line 68 matches at some position,
i.e. at the start of some suffix. -/
def containsEscape (s : String) : Bool :=
  s.data.tails.any fun t => (matchEscape t).isSome

example : getPythonRegexPattern "\\x{0600}-\\x{06FF}\\x{FE70}-\\x{FEFC}"
    = "\\u0600-\\u06FF\\uFE70-\\uFEFC" := by decide

example : getPythonRegexPattern "a-zA-Z" = "a-zA-Z" := by decide

example : getPythonRegexPattern "\\x{}-\\x{q}" = "\\x{}-\\x{q}" := by decide

/-! ### Basic facts about `hexSpan` and `matchEscape` -/

theorem hexSpan_append_eq (l : List Char) : (hexSpan l).1 ++ (hexSpan l).2 = l := by
  induction l with
  | nil => rfl
  | cons c cs ih =>
    cases h : isHexDigit c <;> simp [hexSpan, h, ih]

theorem hexSpan_fst_hex (l : List Char) : ∀ c ∈ (hexSpan l).1, isHexDigit c = true := by
  induction l with
  | nil => simp [hexSpan]
  | cons c cs ih =>
    cases h : isHexDigit c with
    | false => simp [hexSpan, h]
    | true =>
      simp only [hexSpan, h, if_true, List.mem_cons]
      rintro a (rfl | ha)
      · exact h
      · exact ih a ha

theorem hexSpan_snd_head (l : List Char) :
    ∀ c ts, (hexSpan l).2 = c :: ts → isHexDigit c = false := by
  induction l with
  | nil => intro c ts h; simp [hexSpan] at h
  | cons a cs ih =>
    intro c ts h
    cases ha : isHexDigit a with
    | false =>
      simp only [hexSpan, ha, Bool.false_eq_true, if_false] at h
      obtain ⟨rfl, -⟩ := List.cons.inj h
      exact ha
    | true =>
      simp only [hexSpan, ha, if_true] at h
      exact ih c ts h

theorem hexSpan_exact : ∀ (h r : List Char), (∀ c ∈ h, isHexDigit c = true) →
    (∀ c ts, r = c :: ts → isHexDigit c = false) → hexSpan (h ++ r) = (h, r)
  | [], r, _, hr => by
    cases r with
    | nil => rfl
    | cons c ts => simp [hexSpan, hr c ts rfl]
  | c :: h, r, hh, hr => by
    have hc : isHexDigit c = true := hh c (by simp)
    simp [hexSpan, hc, hexSpan_exact h r (fun a ha => hh a (by simp [ha])) hr]

theorem matchEscape_some_iff {l h t : List Char} :
    matchEscape l = some (h, t) ↔
      l = '\\' :: 'x' :: '{' :: (h ++ '}' :: t) ∧ h ≠ [] ∧ ∀ c ∈ h, isHexDigit c = true := by
  constructor
  · intro he
    rcases l with _ | ⟨c1, _ | ⟨c2, _ | ⟨c3, rest⟩⟩⟩
    · simp [matchEscape] at he
    · simp [matchEscape] at he
    · simp [matchEscape] at he
    · by_cases h3 : c1 = '\\' ∧ c2 = 'x' ∧ c3 = '{'
      · obtain ⟨rfl, rfl, rfl⟩ := h3
        simp only [matchEscape, and_self, if_true, true_and] at he
        by_cases h4 : (hexSpan rest).1 ≠ [] ∧ (hexSpan rest).2.head? = some '}'
        · rw [if_pos h4] at he
          obtain ⟨he1, he2⟩ := Prod.mk.injEq .. ▸ Option.some.inj he
          obtain ⟨h41, h42⟩ := h4
          cases hr2 : (hexSpan rest).2 with
          | nil => rw [hr2] at h42; simp at h42
          | cons a ts =>
            rw [hr2] at h42
            simp only [List.head?_cons, Option.some.injEq] at h42
            subst h42
            have hrest : rest = h ++ '}' :: t := by
              rw [← hexSpan_append_eq rest, hr2, he1]
              rw [hr2] at he2
              simp only [List.tail_cons] at he2
              rw [he2]
            refine ⟨by rw [hrest], ?_, ?_⟩
            · rw [← he1]; exact h41
            · rw [← he1]; exact hexSpan_fst_hex rest
        · rw [if_neg h4] at he
          exact absurd he (by simp)
      · rw [matchEscape, if_neg h3] at he
        exact absurd he (by simp)
  · rintro ⟨rfl, hne, hhex⟩
    have hspan : hexSpan (h ++ '}' :: t) = (h, '}' :: t) := by
      refine hexSpan_exact h ('}' :: t) hhex ?_
      rintro c ts hcts
      obtain ⟨rfl, -⟩ := List.cons.inj hcts
      decide
    simp [matchEscape, hspan, hne]

theorem matchEscape_some_length {l h t : List Char} (he : matchEscape l = some (h, t)) :
    t.length + 5 ≤ l.length := by
  obtain ⟨rfl, hne, -⟩ := matchEscape_some_iff.mp he
  have h1 : 1 ≤ h.length := by
    cases h with
    | nil => exact absurd rfl hne
    | cons a b => simp
  simp only [List.length_cons, List.length_append]
  omega

theorem matchEscape_none_of_ne_bs {c : Char} {cs : List Char} (h : c ≠ '\\') :
    matchEscape (c :: cs) = none := by
  rcases cs with _ | ⟨c2, _ | ⟨c3, rest⟩⟩
  · rfl
  · rfl
  · simp [matchEscape, h]

theorem matchEscape_none_of_ne_x {c1 c2 : Char} {cs : List Char} (h : c2 ≠ 'x') :
    matchEscape (c1 :: c2 :: cs) = none := by
  rcases cs with _ | ⟨c3, rest⟩
  · rfl
  · simp [matchEscape, h]

theorem matchEscape_bs_x_brace (rest : List Char) :
    matchEscape ('\\' :: 'x' :: '{' :: rest) =
      if (hexSpan rest).1 ≠ [] ∧ (hexSpan rest).2.head? = some '}' then
        some ((hexSpan rest).1, (hexSpan rest).2.tail)
      else none := by
  simp [matchEscape]

/-! ### The `re.sub` scan: equations, head preservation, idempotence -/

theorem pySubFuel_congr : ∀ (n m : Nat) (l : List Char), l.length ≤ n → l.length ≤ m →
    pySubFuel n l = pySubFuel m l := by
  intro n
  induction n with
  | zero =>
    intro m l hn _
    have : l = [] := List.eq_nil_of_length_eq_zero (Nat.le_zero.mp hn)
    subst this
    cases m <;> rfl
  | succ n ih =>
    intro m l hn hm
    cases l with
    | nil => cases m <;> rfl
    | cons c cs =>
      cases m with
      | zero => simp at hm
      | succ m =>
        simp only [List.length_cons, Nat.add_le_add_iff_right] at hn hm
        cases he : matchEscape (c :: cs) with
        | none =>
          simp only [pySubFuel, he]
          rw [ih m cs hn hm]
        | some p =>
          obtain ⟨h, t⟩ := p
          have hlen := matchEscape_some_length he
          simp only [List.length_cons] at hlen
          simp only [pySubFuel, he]
          rw [ih m t (by omega) (by omega)]

theorem pyRegexSub_nil : pyRegexSub [] = [] := rfl

theorem pyRegexSub_match {c : Char} {cs h t : List Char}
    (he : matchEscape (c :: cs) = some (h, t)) :
    pyRegexSub (c :: cs) = '\\' :: 'u' :: (h ++ pyRegexSub t) := by
  have hlen := matchEscape_some_length he
  simp only [List.length_cons] at hlen
  unfold pyRegexSub
  simp only [List.length_cons, pySubFuel, he]
  rw [pySubFuel_congr cs.length t.length t (by omega) le_rfl]

theorem pyRegexSub_nomatch {c : Char} {cs : List Char}
    (he : matchEscape (c :: cs) = none) :
    pyRegexSub (c :: cs) = c :: pyRegexSub cs := by
  unfold pyRegexSub
  simp only [List.length_cons, pySubFuel, he]

theorem pyRegexSub_head (c : Char) (cs : List Char) :
    ∃ t, pyRegexSub (c :: cs) = c :: t := by
  cases he : matchEscape (c :: cs) with
  | none => exact ⟨pyRegexSub cs, pyRegexSub_nomatch he⟩
  | some p =>
    obtain ⟨h, t⟩ := p
    have hshape := (matchEscape_some_iff.mp he).1
    obtain ⟨rfl, -⟩ := List.cons.inj hshape
    exact ⟨'u' :: (h ++ pyRegexSub t), pyRegexSub_match he⟩

theorem pyRegexSub_hexPass : ∀ (h r : List Char), (∀ c ∈ h, isHexDigit c = true) →
    pyRegexSub (h ++ r) = h ++ pyRegexSub r
  | [], _, _ => rfl
  | c :: h, r, hh => by
    have hc : isHexDigit c = true := hh c (by simp)
    have hcb : c ≠ '\\' := by
      rintro rfl
      exact absurd hc (by decide)
    rw [List.cons_append, pyRegexSub_nomatch (matchEscape_none_of_ne_bs hcb),
      pyRegexSub_hexPass h r (fun a ha => hh a (List.mem_cons_of_mem _ ha)),
      List.cons_append]

theorem hexSpan_pyRegexSub (m : List Char) :
    hexSpan (pyRegexSub m) = ((hexSpan m).1, pyRegexSub (hexSpan m).2) := by
  conv_lhs => rw [← hexSpan_append_eq m]
  rw [pyRegexSub_hexPass _ _ (hexSpan_fst_hex m)]
  refine hexSpan_exact _ _ (hexSpan_fst_hex m) ?_
  intro c ts hct
  cases hr : (hexSpan m).2 with
  | nil => rw [hr, pyRegexSub_nil] at hct; exact absurd hct (by simp)
  | cons a r2 =>
    obtain ⟨t0, ht0⟩ := pyRegexSub_head a r2
    rw [hr, ht0] at hct
    obtain ⟨h1, -⟩ := List.cons.inj hct
    rw [← h1]
    exact hexSpan_snd_head m a r2 hr

theorem matchEscape_pyRegexSub_none {c : Char} {cs : List Char}
    (he : matchEscape (c :: cs) = none) :
    matchEscape (c :: pyRegexSub cs) = none := by
  cases hm : matchEscape (c :: pyRegexSub cs) with
  | none => rfl
  | some p =>
    exfalso
    obtain ⟨h, t⟩ := p
    obtain ⟨hshape, hne, hhex⟩ := matchEscape_some_iff.mp hm
    obtain ⟨rfl, htl⟩ := List.cons.inj hshape
    cases cs with
    | nil => rw [pyRegexSub_nil] at htl; exact absurd htl (by simp)
    | cons a cs2 =>
      obtain ⟨t1, ht1⟩ := pyRegexSub_head a cs2
      rw [ht1] at htl
      obtain ⟨rfl, -⟩ := List.cons.inj htl
      have hx : pyRegexSub ('x' :: cs2) = 'x' :: pyRegexSub cs2 :=
        pyRegexSub_nomatch (matchEscape_none_of_ne_bs (by decide))
      have ht1e : t1 = pyRegexSub cs2 := (List.cons.inj (ht1.symm.trans hx)).2
      subst ht1e
      obtain ⟨-, htl2⟩ := List.cons.inj htl
      cases cs2 with
      | nil => rw [pyRegexSub_nil] at htl2; exact absurd htl2 (by simp)
      | cons b cs3 =>
        obtain ⟨t2, ht2⟩ := pyRegexSub_head b cs3
        rw [ht2] at htl2
        obtain ⟨rfl, -⟩ := List.cons.inj htl2
        have hbr : pyRegexSub ('{' :: cs3) = '{' :: pyRegexSub cs3 :=
          pyRegexSub_nomatch (matchEscape_none_of_ne_bs (by decide))
        have ht2e : t2 = pyRegexSub cs3 := (List.cons.inj (ht2.symm.trans hbr)).2
        subst ht2e
        obtain ⟨-, htl3⟩ := List.cons.inj htl2
        -- htl3 : pyRegexSub cs3 = h ++ '}' :: t
        rw [matchEscape_bs_x_brace] at he
        have hfail : ¬((hexSpan cs3).1 ≠ [] ∧ (hexSpan cs3).2.head? = some '}') := by
          intro hcond
          rw [if_pos hcond] at he
          exact absurd he (by simp)
        have hsub : hexSpan (pyRegexSub cs3) = ((hexSpan cs3).1, pyRegexSub (hexSpan cs3).2) :=
          hexSpan_pyRegexSub cs3
        have hsub2 : hexSpan (h ++ '}' :: t) = (h, '}' :: t) := by
          refine hexSpan_exact h ('}' :: t) hhex ?_
          rintro c2 ts hcts
          obtain ⟨rfl, -⟩ := List.cons.inj hcts
          decide
        rw [htl3, hsub2] at hsub
        obtain ⟨hfst, hsnd⟩ := Prod.mk.injEq .. ▸ hsub
        apply hfail
        constructor
        · rw [← hfst]; exact hne
        · cases hr2 : (hexSpan cs3).2 with
          | nil => rw [hr2, pyRegexSub_nil] at hsnd; exact absurd hsnd (by simp)
          | cons a2 r2 =>
            obtain ⟨t3, ht3⟩ := pyRegexSub_head a2 r2
            rw [hr2, ht3] at hsnd
            obtain ⟨rfl, -⟩ := List.cons.inj hsnd.symm
            rfl

theorem suffix_append_cases : ∀ (h X t : List Char), t <:+ h ++ X →
    t <:+ X ∨ ∃ c h2, (c :: h2) <:+ h ∧ t = (c :: h2) ++ X
  | [], _, t, ht => Or.inl (by simpa using ht)
  | c :: h, X, t, ht => by
    rw [List.cons_append] at ht
    rcases List.suffix_cons_iff.mp ht with rfl | ht2
    · exact Or.inr ⟨c, h, List.suffix_refl _, by rw [List.cons_append]⟩
    · rcases suffix_append_cases h X t ht2 with h1 | ⟨c2, h2, hs, rfl⟩
      · exact Or.inl h1
      · exact Or.inr ⟨c2, h2, hs.trans (List.suffix_cons c h), rfl⟩

theorem pyRegexSub_noMatch : ∀ (n : Nat) (l : List Char), l.length ≤ n →
    ∀ t, t <:+ pyRegexSub l → matchEscape t = none := by
  intro n
  induction n with
  | zero =>
    intro l hn t ht
    have : l = [] := List.eq_nil_of_length_eq_zero (Nat.le_zero.mp hn)
    subst this
    rw [pyRegexSub_nil] at ht
    rw [List.suffix_nil.mp ht]
    rfl
  | succ n ih =>
    intro l hn t ht
    cases l with
    | nil =>
      rw [pyRegexSub_nil] at ht
      rw [List.suffix_nil.mp ht]
      rfl
    | cons c cs =>
      simp only [List.length_cons, Nat.add_le_add_iff_right] at hn
      cases he : matchEscape (c :: cs) with
      | none =>
        rw [pyRegexSub_nomatch he] at ht
        rcases List.suffix_cons_iff.mp ht with rfl | ht2
        · exact matchEscape_pyRegexSub_none he
        · exact ih cs hn t ht2
      | some p =>
        obtain ⟨h, tl⟩ := p
        have hlen := matchEscape_some_length he
        simp only [List.length_cons] at hlen
        have hhex := (matchEscape_some_iff.mp he).2.2
        rw [pyRegexSub_match he] at ht
        rcases List.suffix_cons_iff.mp ht with rfl | ht2
        · exact matchEscape_none_of_ne_x (by decide)
        · rcases List.suffix_cons_iff.mp ht2 with rfl | ht3
          · exact matchEscape_none_of_ne_bs (by decide)
          · rcases suffix_append_cases h (pyRegexSub tl) t ht3 with h1 | ⟨c2, h2, hs, rfl⟩
            · exact ih tl (by omega) t h1
            · have hc2 : isHexDigit c2 = true := hhex c2 (hs.mem (by simp))
              rw [List.cons_append]
              refine matchEscape_none_of_ne_bs ?_
              rintro rfl
              exact absurd hc2 (by decide)

theorem pyRegexSub_of_noMatch : ∀ (l : List Char),
    (∀ t, t <:+ l → matchEscape t = none) → pyRegexSub l = l
  | [], _ => rfl
  | c :: cs, hl => by
    rw [pyRegexSub_nomatch (hl _ (List.suffix_refl _)),
      pyRegexSub_of_noMatch cs (fun t ht => hl t (ht.trans (List.suffix_cons c cs)))]

theorem pyRegexSub_idem (l : List Char) : pyRegexSub (pyRegexSub l) = pyRegexSub l :=
  pyRegexSub_of_noMatch _ (pyRegexSub_noMatch l.length l le_rfl)

theorem getPythonRegexPattern_idem (s : String) :
    getPythonRegexPattern (getPythonRegexPattern s) = getPythonRegexPattern s := by
  unfold getPythonRegexPattern
  rw [show (String.mk (pyRegexSub s.data)).data = pyRegexSub s.data from rfl,
    pyRegexSub_idem]

theorem containsEscape_getPythonRegexPattern (s : String) :
    containsEscape (getPythonRegexPattern s) = false := by
  unfold containsEscape getPythonRegexPattern
  rw [List.any_eq_false]
  intro t ht
  rw [List.mem_tails] at ht
  rw [pyRegexSub_noMatch s.data.length s.data le_rfl t
    (by simpa using ht)]
  simp

namespace Lute

/-! ### The `Language` entity -/

/-- The `Language` entity (lines 14-46 of `language.py`).  Each mapped
column attribute holds a dynamically typed Python value; a column
attribute that was never assigned reads as `None` (modelled `vnone`).
The raw stored column `LgRegexpWordCharacters` is `_word_characters`;
the `word_characters` property is defined separately below. -/
structure Language where
  id : PyVal
  name : PyVal
  dict_1_uri : PyVal
  dict_2_uri : PyVal
  sentence_translate_uri : PyVal
  character_substitutions : PyVal
  regexp_split_sentences : PyVal
  exceptions_split_sentences : PyVal
  _word_characters : PyVal
  remove_spaces : PyVal
  split_each_char : PyVal
  right_to_left : PyVal
  show_romanization : PyVal
  parser_type : PyVal
deriving DecidableEq, Repr

/-- The `word_characters` property setter (lines 77-79):
`self._word_characters = self._get_python_regex_pattern(s)`.  `re.sub`
raises `TypeError` when its third argument is not a string, so assigning
any non-string value through the property raises. -/
def Language.set_word_characters (lang : Language) : PyVal → Except String Language
  | .vstr s => .ok { lang with _word_characters := .vstr (getPythonRegexPattern s) }
  | _ => .error "TypeError: expected string or bytes-like object"

/-- The `word_characters` property getter (lines 72-74):
`return self._get_python_regex_pattern(self._word_characters)`; raises
`TypeError` when the stored value is not a string. -/
def Language.word_characters (lang : Language) : Except String PyVal :=
  match lang._word_characters with
  | .vstr s => .ok (.vstr (getPythonRegexPattern s))
  | _ => .error "TypeError: expected string or bytes-like object"

/-- A `Language()` before `__init__` runs: every column attribute reads
as `None`. -/
def Language.blank : Language :=
  ⟨.vnone, .vnone, .vnone, .vnone, .vnone, .vnone, .vnone,
   .vnone, .vnone, .vnone, .vnone, .vnone, .vnone, .vnone⟩

/-- `Language.__init__` (lines 37-46).  The assignment on line 41 goes
through the `word_characters` property setter, so the stored raw value is
the normalized default (the default contains no hex escape, so
normalization leaves it unchanged, see `C6`). -/
def Language.new : Language :=
  { Language.blank with
    character_substitutions := .vstr "´='|`='|’='|‘='|...=…|..=‥"
    regexp_split_sentences := .vstr ".!?"
    exceptions_split_sentences := .vstr "Mr.|Mrs.|Dr.|[A-Z].|Vd.|Vds."
    _word_characters := .vstr (getPythonRegexPattern "a-zA-ZÀ-ÖØ-öø-ȳáéíóúÁÉÍÓÚñÑ")
    remove_spaces := .vbool false
    split_each_char := .vbool false
    right_to_left := .vbool false
    show_romanization := .vbool false
    parser_type := .vstr "spacedel" }

/-! ### The `from_yaml` loader -/

/-- The eleven target attributes of the mapping table on lines 105-117 of
`language.py` (the values of the `mappings` dict). -/
inductive Attr where
  | name
  | dict_1_uri
  | dict_2_uri
  | sentence_translate_uri
  | show_romanization
  | right_to_left
  | parser_type
  | character_substitutions
  | regexp_split_sentences
  | exceptions_split_sentences
  | word_characters
deriving DecidableEq, Repr

/-- `mappings.get(key, '')` (line 120): the fixed key-to-attribute table
of lines 105-117, `none` for a key not in the table. -/
def lookupMapping (key : String) : Option Attr :=
  if key = "name" then some .name
  else if key = "dict_1" then some .dict_1_uri
  else if key = "dict_2" then some .dict_2_uri
  else if key = "sentence_translation" then some .sentence_translate_uri
  else if key = "show_romanization" then some .show_romanization
  else if key = "right_to_left" then some .right_to_left
  else if key = "parser_type" then some .parser_type
  else if key = "character_substitutions" then some .character_substitutions
  else if key = "split_sentences" then some .regexp_split_sentences
  else if key = "split_sentence_exceptions" then some .exceptions_split_sentences
  else if key = "word_chars" then some .word_characters
  else none

/-- The external document key of each mapped attribute (the inverse of
the table of lines 105-117, which maps distinct keys to distinct
attributes). -/
def keyOf : Attr → String
  | .name => "name"
  | .dict_1_uri => "dict_1"
  | .dict_2_uri => "dict_2"
  | .sentence_translate_uri => "sentence_translation"
  | .show_romanization => "show_romanization"
  | .right_to_left => "right_to_left"
  | .parser_type => "parser_type"
  | .character_substitutions => "character_substitutions"
  | .regexp_split_sentences => "split_sentences"
  | .exceptions_split_sentences => "split_sentence_exceptions"
  | .word_characters => "word_chars"

/-- Python `str.lower()` (line 97), character by character.  `Char.toLower`
lowercases exactly the ASCII uppercase letters; this is all that can
matter here, since no non-ASCII character lowercases to an ASCII one of
`true`/`false`. -/
def strLower (s : String) : String :=
  String.mk (s.data.map Char.toLower)

/-- The boolean-coercion step of `load` (lines 95-101): a string equal
case-insensitively to `true` or `false` becomes the boolean, everything
else is left unchanged. -/
def coerceBool : PyVal → PyVal
  | .vstr s =>
    let temp := strLower s
    if temp = "true" then .vbool true
    else if temp = "false" then .vbool false
    else .vstr s
  | v => v

/-- `setattr(lang, method, val)` (line 102) for the eleven attribute
names that can appear as `method`: a plain field update, except for
`word_characters`, which is a property whose setter normalizes string
values and raises `TypeError` on anything else. -/
def setattrA (lang : Language) : Attr → PyVal → Except String Language
  | .name, v => .ok { lang with name := v }
  | .dict_1_uri, v => .ok { lang with dict_1_uri := v }
  | .dict_2_uri, v => .ok { lang with dict_2_uri := v }
  | .sentence_translate_uri, v => .ok { lang with sentence_translate_uri := v }
  | .show_romanization, v => .ok { lang with show_romanization := v }
  | .right_to_left, v => .ok { lang with right_to_left := v }
  | .parser_type, v => .ok { lang with parser_type := v }
  | .character_substitutions, v => .ok { lang with character_substitutions := v }
  | .regexp_split_sentences, v => .ok { lang with regexp_split_sentences := v }
  | .exceptions_split_sentences, v => .ok { lang with exceptions_split_sentences := v }
  | .word_characters, v => lang.set_word_characters v

/-- Read the raw stored value of a mapped attribute (for
`word_characters`, the raw stored column `_word_characters`). -/
def getRaw (lang : Language) : Attr → PyVal
  | .name => lang.name
  | .dict_1_uri => lang.dict_1_uri
  | .dict_2_uri => lang.dict_2_uri
  | .sentence_translate_uri => lang.sentence_translate_uri
  | .show_romanization => lang.show_romanization
  | .right_to_left => lang.right_to_left
  | .parser_type => lang.parser_type
  | .character_substitutions => lang.character_substitutions
  | .regexp_split_sentences => lang.regexp_split_sentences
  | .exceptions_split_sentences => lang.exceptions_split_sentences
  | .word_characters => lang._word_characters

/-- One iteration of the loop on lines 119-122: look the key up in the
mapping table; if mapped, run `load(key, funcname)` (lines 92-102), which
coerces boolean-looking strings and assigns; an unmapped key does
nothing. -/
def loadStep (lang : Language) (key : String) (val : PyVal) : Except String Language :=
  match lookupMapping key with
  | some attr => setattrA lang attr (coerceBool val)
  | none => .ok lang

/-- The loop on lines 119-122 over the document's key/value pairs in
order. -/
def applyDoc : Language → List (String × PyVal) → Except String Language
  | lang, [] => .ok lang
  | lang, (k, v) :: rest =>
    match loadStep lang k v with
    | .ok lang2 => applyDoc lang2 rest
    | .error e => .error e

/-- `Language.from_yaml` (lines 82-124) applied to an already-parsed
definition document, modelled as its list of key/value pairs in document
order: construct a `Language()` with defaults, then apply the mapped
keys. -/
def from_yaml (d : List (String × PyVal)) : Except String Language :=
  applyDoc Language.new d

example : from_yaml [("right_to_left", .vstr "true")]
    = .ok { Language.new with right_to_left := .vbool true } := rfl

example : (from_yaml [("word_chars", .vstr "true")]).isOk = false := rfl

example : from_yaml [("parser_type", .vnone)]
    = .ok { Language.new with parser_type := .vnone } := rfl

/-! ### The predefined-language catalog -/

/-- The list comprehension on line 134: load each discovered definition
document in turn; a raised error propagates out of `get_predefined`. -/
def loadAll : List (List (String × PyVal)) → Except String (List Language)
  | [] => .ok []
  | d :: rest =>
    match from_yaml d with
    | .ok l =>
      match loadAll rest with
      | .ok ls => .ok (l :: ls)
      | .error e => .error e
    | .error e => .error e

/-- The sort key `lambda x: x.name` (line 141) when the name is a
string. -/
def nameKey (lang : Language) : String :=
  match lang.name with
  | .vstr s => s
  | _ => ""

/-- Comparison of two loaded languages by `name`, as `list.sort` does
with the key of line 141 (Python string comparison is code-point
lexicographic, as is `String.le`). -/
def nameLe (a b : Language) : Prop := nameKey a ≤ nameKey b

instance : DecidableRel nameLe := fun a b =>
  inferInstanceAs (Decidable (nameKey a ≤ nameKey b))

instance : IsTotal Language nameLe := ⟨fun a b => le_total (nameKey a) (nameKey b)⟩

instance : IsTrans Language nameLe := ⟨fun _ _ _ => le_trans⟩

/-- `Language.get_predefined` (lines 127-142), with the directory glob
abstracted: the input is the list of parsed documents found in
`demo/languages/*.yaml`.  `ret.sort(key=lambda x: x.name)` (line 141) is
a stable comparison sort on the `name` attributes, modelled by insertion
sort; `list.sort` raises `TypeError` when it compares values that are
not both strings, modelled conservatively as an error whenever some
loaded name is not a string. -/
def get_predefined (docs : List (List (String × PyVal))) : Except String (List Language) :=
  match loadAll docs with
  | .error e => .error e
  | .ok ls =>
    if ls.all (fun l => match l.name with | .vstr _ => true | _ => false) then
      .ok (List.insertionSort nameLe ls)
    else .error "TypeError: unsupported comparison"

/-! ### Parser resolution and dispatch -/

/-- A tokenizer implementation: the capability set required of a
registered parser, `get_parsed_tokens(text, language)` and
`get_lowercase(text)` (spec §4.5, consumed on lines 196-200). -/
structure ParserImpl where
  get_parsed_tokens : String → Language → List String
  get_lowercase : String → String

/-- Modelled from the spec: `lute.parse.registry.get_parser` (imported on
line 11 of `language.py` but not among the sources).  Spec §4.5: a closed
table mapping a parser-type tag (string) to an implementation;
`resolve(tag)` fails with `UnknownParserError` if `tag` is not registered
and never falls back to a default.  The registry table is passed
explicitly as an association list. -/
def resolveParser (registry : List (String × ParserImpl)) : PyVal → Except String ParserImpl
  | .vstr tag =>
    match registry.lookup tag with
    | some p => .ok p
    | none => .error "UnknownParserError"
  | _ => .error "UnknownParserError"

/-- Whether a profile's `parser_type` value names a registered parser
tag. -/
def isRegistered (registry : List (String × ParserImpl)) : PyVal → Bool
  | .vstr tag => (registry.lookup tag).isSome
  | _ => false

/-- The `parser` property (lines 192-194):
`return get_parser(self.parser_type)`. -/
def Language.parser (registry : List (String × ParserImpl)) (lang : Language) :
    Except String ParserImpl :=
  resolveParser registry lang.parser_type

/-- `Language.get_parsed_tokens` (lines 196-197): resolve the parser
from `parser_type`, then delegate
`self.parser.get_parsed_tokens(s, self)`; a resolution failure
propagates and no tokens are produced. -/
def Language.get_parsed_tokens (registry : List (String × ParserImpl))
    (lang : Language) (s : String) : Except String (List String) :=
  match lang.parser registry with
  | .ok p => .ok (p.get_parsed_tokens s lang)
  | .error e => .error e

/-! ### Loader lemmas -/

theorem setattrA_ok_frame {lang lang2 : Language} {a b : Attr} {v : PyVal}
    (h : setattrA lang a v = .ok lang2) (hb : b ≠ a) :
    getRaw lang2 b = getRaw lang b := by
  cases a <;> cases b <;>
    first
    | exact absurd rfl hb
    | (simp only [setattrA, Except.ok.injEq] at h; subst h; rfl)
    | (cases v <;>
        first
        | (simp only [setattrA, Language.set_word_characters, Except.ok.injEq] at h;
           subst h; rfl)
        | (simp only [setattrA, Language.set_word_characters] at h; exact absurd h (by simp)))

theorem setattrA_ok_get {lang : Language} {a : Attr}
    (hne : a ≠ Attr.word_characters) (v : PyVal) :
    ∃ lang2, setattrA lang a v = .ok lang2 ∧ getRaw lang2 a = v := by
  cases a <;> first
    | exact absurd rfl hne
    | exact ⟨_, rfl, rfl⟩

theorem setattrA_word_str (lang : Language) (s : String) :
    setattrA lang .word_characters (.vstr s)
      = .ok { lang with _word_characters := .vstr (getPythonRegexPattern s) } := rfl

theorem lookupMapping_eq_some {k : String} {a : Attr} (h : lookupMapping k = some a) :
    k = keyOf a := by
  unfold lookupMapping at h
  by_cases h1 : k = "name"
  · rw [if_pos h1] at h
    cases Option.some.inj h
    exact h1
  · rw [if_neg h1] at h
    by_cases h2 : k = "dict_1"
    · rw [if_pos h2] at h
      cases Option.some.inj h
      exact h2
    · rw [if_neg h2] at h
      by_cases h3 : k = "dict_2"
      · rw [if_pos h3] at h
        cases Option.some.inj h
        exact h3
      · rw [if_neg h3] at h
        by_cases h4 : k = "sentence_translation"
        · rw [if_pos h4] at h
          cases Option.some.inj h
          exact h4
        · rw [if_neg h4] at h
          by_cases h5 : k = "show_romanization"
          · rw [if_pos h5] at h
            cases Option.some.inj h
            exact h5
          · rw [if_neg h5] at h
            by_cases h6 : k = "right_to_left"
            · rw [if_pos h6] at h
              cases Option.some.inj h
              exact h6
            · rw [if_neg h6] at h
              by_cases h7 : k = "parser_type"
              · rw [if_pos h7] at h
                cases Option.some.inj h
                exact h7
              · rw [if_neg h7] at h
                by_cases h8 : k = "character_substitutions"
                · rw [if_pos h8] at h
                  cases Option.some.inj h
                  exact h8
                · rw [if_neg h8] at h
                  by_cases h9 : k = "split_sentences"
                  · rw [if_pos h9] at h
                    cases Option.some.inj h
                    exact h9
                  · rw [if_neg h9] at h
                    by_cases h10 : k = "split_sentence_exceptions"
                    · rw [if_pos h10] at h
                      cases Option.some.inj h
                      exact h10
                    · rw [if_neg h10] at h
                      by_cases h11 : k = "word_chars"
                      · rw [if_pos h11] at h
                        cases Option.some.inj h
                        exact h11
                      · rw [if_neg h11] at h
                        exact absurd h (by simp)

theorem loadStep_unmapped {k : String} (lang : Language) (v : PyVal)
    (h : lookupMapping k = none) : loadStep lang k v = .ok lang := by
  unfold loadStep
  rw [h]

theorem applyDoc_frame : ∀ (d : List (String × PyVal)) (lang lang2 : Language) (a : Attr),
    applyDoc lang d = .ok lang2 →
    (∀ p ∈ d, lookupMapping p.1 ≠ some a) →
    getRaw lang2 a = getRaw lang a := by
  intro d
  induction d with
  | nil =>
    intro lang lang2 a h _
    simp only [applyDoc, Except.ok.injEq] at h
    subst h
    rfl
  | cons p rest ih =>
    intro lang lang2 a h hnone
    obtain ⟨k, v⟩ := p
    simp only [applyDoc] at h
    cases hstep : loadStep lang k v with
    | error e => rw [hstep] at h; simp at h
    | ok lang3 =>
      rw [hstep] at h
      have h3 : getRaw lang3 a = getRaw lang a := by
        unfold loadStep at hstep
        cases hl : lookupMapping k with
        | none =>
          rw [hl] at hstep
          obtain rfl := Except.ok.inj hstep
          rfl
        | some a0 =>
          rw [hl] at hstep
          have ha0 : a0 ≠ a := fun he => hnone (k, v) (by simp) (by rw [hl, he])
          exact setattrA_ok_frame hstep (Ne.symm ha0)
      rw [ih lang3 lang2 a h (fun q hq => hnone q (List.mem_cons_of_mem _ hq)), h3]

theorem loadAll_length : ∀ (docs : List (List (String × PyVal))) (ls : List Language),
    loadAll docs = .ok ls → ls.length = docs.length := by
  intro docs
  induction docs with
  | nil =>
    intro ls h
    simp only [loadAll, Except.ok.injEq] at h
    subst h
    rfl
  | cons d rest ih =>
    intro ls h
    simp only [loadAll] at h
    cases h1 : from_yaml d with
    | error e => rw [h1] at h; simp at h
    | ok l =>
      rw [h1] at h
      cases h2 : loadAll rest with
      | error e => rw [h2] at h; simp at h
      | ok ls2 =>
        rw [h2] at h
        obtain rfl := Except.ok.inj h
        simp [ih ls2 h2]

theorem lookupMapping_inj {k k2 : String} {a : Attr}
    (h1 : lookupMapping k = some a) (h2 : lookupMapping k2 = some a) : k = k2 := by
  rw [lookupMapping_eq_some h1, lookupMapping_eq_some h2]

theorem from_yaml_single {k : String} {a : Attr} (hk : lookupMapping k = some a) (v : PyVal) :
    from_yaml [(k, v)] = setattrA Language.new a (coerceBool v) := by
  have hstep : loadStep Language.new k v = setattrA Language.new a (coerceBool v) := by
    unfold loadStep
    rw [hk]
  unfold from_yaml applyDoc
  rw [hstep]
  cases setattrA Language.new a (coerceBool v) with
  | ok l => rfl
  | error e => rfl

theorem coerceBool_vstr (s : String) :
    coerceBool (.vstr s) =
      if strLower s = "true" then .vbool true
      else if strLower s = "false" then .vbool false
      else .vstr s := rfl

theorem coerceBool_other {v : PyVal} (h : ∀ s, v ≠ .vstr s) : coerceBool v = v := by
  cases v with
  | vstr s => exact absurd rfl (h s)
  | vnone => rfl
  | vbool b => rfl
  | vint n => rfl

theorem get_predefined_ok {docs : List (List (String × PyVal))} {langs : List Language}
    (h : get_predefined docs = .ok langs) :
    ∃ loaded, loadAll docs = .ok loaded ∧ loaded.length = docs.length
      ∧ langs.Perm loaded ∧ List.Sorted nameLe langs := by
  unfold get_predefined at h
  cases hl : loadAll docs with
  | error e => rw [hl] at h; exact absurd h (by simp)
  | ok ls =>
    rw [hl] at h
    dsimp only at h
    by_cases hall : (ls.all fun l => match l.name with | .vstr _ => true | _ => false) = true
    · rw [if_pos hall] at h
      obtain rfl := (Except.ok.inj h).symm
      exact ⟨ls, rfl, loadAll_length docs ls hl, List.perm_insertionSort nameLe ls,
        List.sorted_insertionSort nameLe ls⟩
    · rw [if_neg hall] at h
      exact absurd h (by simp)

theorem resolveParser_unregistered {registry : List (String × ParserImpl)} {v : PyVal}
    (h : isRegistered registry v = false) :
    resolveParser registry v = .error "UnknownParserError" := by
  cases v with
  | vstr tag =>
    simp only [isRegistered] at h
    cases hl : registry.lookup tag with
    | some p => rw [hl] at h; simp at h
    | none => simp only [resolveParser]; rw [hl]
  | vnone => rfl
  | vbool b => rfl
  | vint n => rfl

/-! ### The claims -/

/-- Claim C1: the regex-dialect normalizer `_get_python_regex_pattern`
replaces every occurrence of backslash, `x`, `\x7b`, one or more hex
digits, `\x7d` by backslash, `u` and the same digits, passes every
character at a non-matching position through unchanged, is total (a Lean
function never raises), and maps the legacy Arabic ranges of the
documented example to the Python form exactly. -/
theorem C1_normalizer_correct :
    (∀ h rest : List Char, h ≠ [] → (∀ c ∈ h, isHexDigit c = true) →
      pyRegexSub ('\\' :: 'x' :: '{' :: (h ++ '}' :: rest))
        = '\\' :: 'u' :: (h ++ pyRegexSub rest))
    ∧ (∀ (c : Char) (cs : List Char), matchEscape (c :: cs) = none →
        pyRegexSub (c :: cs) = c :: pyRegexSub cs)
    ∧ pyRegexSub [] = []
    ∧ getPythonRegexPattern "\\x{0600}-\\x{06FF}\\x{FE70}-\\x{FEFC}"
        = "\\u0600-\\u06FF\\uFE70-\\uFEFC" := by
  refine ⟨?_, ?_, rfl, by decide⟩
  · intro h rest hne hhex
    exact pyRegexSub_match (matchEscape_some_iff.mpr ⟨rfl, hne, hhex⟩)
  · intro c cs h
    exact pyRegexSub_nomatch h

/-- Claim C1 witness: the replacement equation instantiated at the
concrete match with digit group `0` and empty remainder. -/
theorem C1_normalizer_correct_witness :
    pyRegexSub ['\\', 'x', '{', '0', '}'] = '\\' :: 'u' :: (['0'] ++ pyRegexSub []) :=
  C1_normalizer_correct.1 ['0'] [] (by decide) (by decide)

/-- Claim C2: the normalizer is idempotent on every string: its output
contains no match of its own input pattern, so a second application
changes nothing. -/
theorem C2_normalizer_idempotent :
    ∀ s : String,
      getPythonRegexPattern (getPythonRegexPattern s) = getPythonRegexPattern s :=
  getPythonRegexPattern_idem

/-- Claim C3: writing `word_characters = s` stores the normalized form
of `s` in the raw column; every subsequent read returns that normalized
form (which contains no legacy hex-escape), and writing back the value
just read leaves the instance unchanged, so the observed value is
stable. -/
theorem C3_word_characters_normalized :
    ∀ (lang : Language) (s : String),
      ∃ lang2 : Language,
        lang.set_word_characters (PyVal.vstr s) = .ok lang2
        ∧ lang2._word_characters = PyVal.vstr (getPythonRegexPattern s)
        ∧ lang2.word_characters = .ok (PyVal.vstr (getPythonRegexPattern s))
        ∧ containsEscape (getPythonRegexPattern s) = false
        ∧ lang2.set_word_characters (PyVal.vstr (getPythonRegexPattern s)) = .ok lang2 := by
  intro lang s
  refine ⟨_, rfl, rfl, ?_, containsEscape_getPythonRegexPattern s, ?_⟩
  · show Except.ok (PyVal.vstr (getPythonRegexPattern (getPythonRegexPattern s))) = _
    rw [getPythonRegexPattern_idem]
  · show Except.ok _ = _
    rw [getPythonRegexPattern_idem]

/-- Claim C4 counterexample: for the mapped key `word_chars` with string
value `"true"`, the loader does not assign the boolean: the coerced
`True` reaches the `word_characters` property setter, whose `re.sub`
call raises `TypeError`, so `from_yaml` raises and yields no profile. -/
theorem C4_counterexample :
    from_yaml [("word_chars", PyVal.vstr "true")]
      = .error "TypeError: expected string or bytes-like object"
    ∧ ∀ lang2 : Language, from_yaml [("word_chars", PyVal.vstr "true")] ≠ .ok lang2 :=
  ⟨rfl, fun _ h => Except.noConfusion h⟩

/-- Claim C4 (amended): when the loader applies a mapped document key, a
string equal case-insensitively to `true`/`false` is coerced to the
corresponding boolean and every other value is passed through unchanged;
the coerced value is assigned as-is to every target attribute except
`word_characters`, whose property setter normalizes strings and raises
`TypeError` on the non-string results of coercion; in particular
`right_to_left: "true"` yields a profile with `right_to_left == True`. -/
theorem C4_amended_coercion :
    (∀ (k : String) (a : Attr) (s : String), lookupMapping k = some a →
      a ≠ Attr.word_characters →
      ∃ lang2, from_yaml [(k, PyVal.vstr s)] = .ok lang2 ∧
        getRaw lang2 a =
          (if strLower s = "true" then PyVal.vbool true
           else if strLower s = "false" then PyVal.vbool false
           else PyVal.vstr s))
    ∧ (∀ (k : String) (a : Attr) (v : PyVal), lookupMapping k = some a →
        a ≠ Attr.word_characters → (∀ s, v ≠ PyVal.vstr s) →
        ∃ lang2, from_yaml [(k, v)] = .ok lang2 ∧ getRaw lang2 a = v)
    ∧ (∃ lang2, from_yaml [("right_to_left", PyVal.vstr "true")] = .ok lang2 ∧
        lang2.right_to_left = PyVal.vbool true) := by
  refine ⟨?_, ?_, ⟨{ Language.new with right_to_left := .vbool true }, rfl, rfl⟩⟩
  · intro k a s hk hne
    obtain ⟨lang2, h1, h2⟩ := setattrA_ok_get hne (coerceBool (PyVal.vstr s))
    refine ⟨lang2, ?_, ?_⟩
    · rw [from_yaml_single hk]
      exact h1
    · rw [h2, coerceBool_vstr]
  · intro k a v hk hne hv
    obtain ⟨lang2, h1, h2⟩ := setattrA_ok_get hne v
    have hcv : coerceBool v = v := coerceBool_other hv
    refine ⟨lang2, ?_, h2⟩
    rw [from_yaml_single hk, hcv]
    exact h1

/-- Claim C4 witness: the coercion conjunct at key `right_to_left` with
the mixed-case string `"False"`. -/
theorem C4_amended_coercion_witness :
    ∃ lang2, from_yaml [("right_to_left", PyVal.vstr "False")] = .ok lang2 ∧
      getRaw lang2 Attr.right_to_left =
        (if strLower "False" = "true" then PyVal.vbool true
         else if strLower "False" = "false" then PyVal.vbool false
         else PyVal.vstr "False") :=
  C4_amended_coercion.1 "right_to_left" Attr.right_to_left "False" rfl (by decide)

/-- Claim C5: a mapped attribute whose external key is absent from the
document keeps its constructor-default raw value, and a document key not
in the mapping table raises nothing and alters no attribute. -/
theorem C5_absent_and_unmapped :
    (∀ (lang : Language) (k : String) (v : PyVal), lookupMapping k = none →
      loadStep lang k v = .ok lang)
    ∧ (∀ (d : List (String × PyVal)) (lang2 : Language) (k : String) (a : Attr),
        from_yaml d = .ok lang2 → lookupMapping k = some a →
        (∀ p ∈ d, p.1 ≠ k) → getRaw lang2 a = getRaw Language.new a) := by
  refine ⟨fun lang k v h => loadStep_unmapped lang v h, ?_⟩
  intro d lang2 k a hok hk habs
  refine applyDoc_frame d Language.new lang2 a hok ?_
  intro p hp hcontra
  exact habs p hp (lookupMapping_inj hcontra hk)

/-- Claim C5 witness: the unmapped key `font` leaves the profile
untouched, and on a document carrying only `right_to_left` the absent
key `name` keeps its default. -/
theorem C5_absent_and_unmapped_witness :
    loadStep Language.new "font" (PyVal.vstr "Arial") = .ok Language.new
    ∧ getRaw { Language.new with right_to_left := PyVal.vbool true } Attr.name
        = getRaw Language.new Attr.name :=
  ⟨C5_absent_and_unmapped.1 Language.new "font" (PyVal.vstr "Arial") rfl,
   C5_absent_and_unmapped.2 [("right_to_left", PyVal.vbool true)]
     { Language.new with right_to_left := PyVal.vbool true } "name" Attr.name rfl rfl
     (by decide)⟩

/-- Claim C6: a freshly constructed `Language` carries exactly the
literal defaults of `__init__`, and the `word_characters` property reads
back the default pattern unchanged. -/
theorem C6_constructor_defaults :
    Language.new.character_substitutions = PyVal.vstr "´='|`='|’='|‘='|...=…|..=‥"
    ∧ Language.new.regexp_split_sentences = PyVal.vstr ".!?"
    ∧ Language.new.exceptions_split_sentences = PyVal.vstr "Mr.|Mrs.|Dr.|[A-Z].|Vd.|Vds."
    ∧ Language.new.word_characters = .ok (PyVal.vstr "a-zA-ZÀ-ÖØ-öø-ȳáéíóúÁÉÍÓÚñÑ")
    ∧ Language.new.remove_spaces = PyVal.vbool false
    ∧ Language.new.split_each_char = PyVal.vbool false
    ∧ Language.new.right_to_left = PyVal.vbool false
    ∧ Language.new.show_romanization = PyVal.vbool false
    ∧ Language.new.parser_type = PyVal.vstr "spacedel" :=
  ⟨rfl, rfl, rfl, rfl, rfl, rfl, rfl, rfl, rfl⟩

/-- Claim C7: `get_predefined` loads one profile per definition document
found and returns them sorted ascending by `name` in code-point
lexicographic order; with no documents it returns the empty sequence. -/
theorem C7_predefined_sorted :
    get_predefined [] = .ok []
    ∧ (∀ (docs : List (List (String × PyVal))) (langs : List Language),
        get_predefined docs = .ok langs →
        ∃ loaded, loadAll docs = .ok loaded ∧ loaded.length = docs.length
          ∧ langs.Perm loaded ∧ List.Sorted nameLe langs) :=
  ⟨rfl, fun _ _ h => get_predefined_ok h⟩

/-- Claim C7 witness: a catalog holding a single English definition. -/
theorem C7_predefined_sorted_witness :
    ∃ loaded, loadAll [[("name", PyVal.vstr "English")]] = .ok loaded
      ∧ loaded.length = [[("name", PyVal.vstr "English")]].length
      ∧ ([{ Language.new with name := PyVal.vstr "English" }] : List Language).Perm loaded
      ∧ List.Sorted nameLe [{ Language.new with name := PyVal.vstr "English" }] :=
  C7_predefined_sorted.2 [[("name", PyVal.vstr "English")]]
    [{ Language.new with name := PyVal.vstr "English" }] rfl

/-- Claim C8: when a profile names a `parser_type` that is not a
registered tag, resolving the `parser` property fails with
`UnknownParserError` and never falls back to a default, so
`get_parsed_tokens` fails identically and produces no tokens. -/
theorem C8_unknown_parser_error :
    ∀ (registry : List (String × ParserImpl)) (lang : Language),
      isRegistered registry lang.parser_type = false →
      lang.parser registry = .error "UnknownParserError"
      ∧ ∀ s : String,
          lang.get_parsed_tokens registry s = .error "UnknownParserError" := by
  intro registry lang h
  have h1 : lang.parser registry = .error "UnknownParserError" :=
    resolveParser_unregistered h
  refine ⟨h1, fun s => ?_⟩
  unfold Language.get_parsed_tokens
  rw [h1]

/-- Claim C8 witness: the default profile against the empty registry. -/
theorem C8_unknown_parser_error_witness :
    Language.new.parser ([] : List (String × ParserImpl)) = .error "UnknownParserError"
    ∧ Language.new.get_parsed_tokens ([] : List (String × ParserImpl)) "Hola amigo."
        = .error "UnknownParserError" :=
  ⟨(C8_unknown_parser_error [] Language.new rfl).1,
   (C8_unknown_parser_error [] Language.new rfl).2 "Hola amigo."⟩

/-- Claim C9 counterexample: for the mapped key `word_chars`, a null
value is not assigned to the target field: the `word_characters`
property setter hands it to `re.sub`, which raises `TypeError`, so
`from_yaml` raises instead of storing `None`. -/
theorem C9_counterexample :
    from_yaml [("word_chars", PyVal.vnone)]
      = .error "TypeError: expected string or bytes-like object"
    ∧ ∀ lang2 : Language, from_yaml [("word_chars", PyVal.vnone)] ≠ .ok lang2 :=
  ⟨rfl, fun _ h => Except.noConfusion h⟩

/-- Claim C9 (amended): a recognized key present with a null value
assigns `None` to the target field, overriding the constructor default,
for every mapped attribute except `word_characters`, whose property
setter raises on `None`; in particular a document whose `parser_type`
key has no value yields `parser_type == None` in place of the default
`"spacedel"`. -/
theorem C9_null_overrides :
    (∀ (k : String) (a : Attr), lookupMapping k = some a →
      a ≠ Attr.word_characters →
      ∃ lang2, from_yaml [(k, PyVal.vnone)] = .ok lang2 ∧ getRaw lang2 a = PyVal.vnone)
    ∧ (∃ lang2, from_yaml [("parser_type", PyVal.vnone)] = .ok lang2
        ∧ lang2.parser_type = PyVal.vnone
        ∧ lang2.parser_type ≠ Language.new.parser_type) := by
  constructor
  · intro k a hk hne
    obtain ⟨lang2, h1, h2⟩ := setattrA_ok_get hne PyVal.vnone
    refine ⟨lang2, ?_, h2⟩
    rw [from_yaml_single hk]
    exact h1
  · exact ⟨{ Language.new with parser_type := PyVal.vnone }, rfl, rfl, by decide⟩

/-- Claim C9 witness: the null-assignment conjunct at key `dict_1`. -/
theorem C9_null_overrides_witness :
    ∃ lang2, from_yaml [("dict_1", PyVal.vnone)] = .ok lang2
      ∧ getRaw lang2 Attr.dict_1_uri = PyVal.vnone :=
  C9_null_overrides.1 "dict_1" Attr.dict_1_uri rfl (by decide)

/-- Claim C10: the constructor assigns no value to `id`, `name`,
`dict_1_uri`, `dict_2_uri` or `sentence_translate_uri` (they read as
`None` until a definition or the store supplies them), while the nine
fields of the defaults table are all set. -/
theorem C10_constructor_frame :
    Language.new.id = PyVal.vnone
    ∧ Language.new.name = PyVal.vnone
    ∧ Language.new.dict_1_uri = PyVal.vnone
    ∧ Language.new.dict_2_uri = PyVal.vnone
    ∧ Language.new.sentence_translate_uri = PyVal.vnone
    ∧ Language.new.character_substitutions ≠ PyVal.vnone
    ∧ Language.new.regexp_split_sentences ≠ PyVal.vnone
    ∧ Language.new.exceptions_split_sentences ≠ PyVal.vnone
    ∧ Language.new._word_characters ≠ PyVal.vnone
    ∧ Language.new.remove_spaces ≠ PyVal.vnone
    ∧ Language.new.split_each_char ≠ PyVal.vnone
    ∧ Language.new.right_to_left ≠ PyVal.vnone
    ∧ Language.new.show_romanization ≠ PyVal.vnone
    ∧ Language.new.parser_type ≠ PyVal.vnone := by
  refine ⟨rfl, rfl, rfl, rfl, rfl, ?_, ?_, ?_, ?_, ?_, ?_, ?_, ?_, ?_⟩ <;> decide

end Lute
